import Mathlib

/-!
Verification of the sfizz core (michaelwillis/sfizz) against its
natural-language specification.

The development shallowly embeds the relevant parts of the C++ sources:

* `Sfz.Buffer`      — `src/sfizz/Buffer.h` (`sfz::Buffer<Type, Alignment>`)
* `Sfz.AudioSpan`   — `src/src/sfizz/AudioSpan.h` (`sfz::AudioSpan`)
* `Sfz.FilePool`    — `src/src/sfizz/FilePool.cpp` (`sfz::FilePool`)
* `Sfz.Voice`       — `src/sfizz/Voice.cpp` (`sfz::Voice`)

Machine integers are modelled by `Nat`/`Int` (with explicit wrap-around
where it matters), raw pointers by natural-number addresses (`0` is the
null pointer), floating-point audio samples by `ℚ`, and fallible
operations return their C++ boolean result together with the new state.
-/

namespace Sfz

/-! ## Buffer (src/sfizz/Buffer.h)

`sfz::Buffer<Type, Alignment>` is modelled with byte addresses.  The
element size `sz` (`sizeof(value_type)`) and the alignment `A`
(`Alignment`) are explicit parameters of the operations.  The C++
`static_assert`s require `Alignment ∈ {0, 4, 8, 16}` and
`TypeAlignment * sizeof(value_type) == Alignment`, i.e. `sz ∣ A`.
-/

/-- State of a `sfz::Buffer`: the field names follow the C++ members.
`paddedData` is the raw allocation returned by `malloc`/`realloc`
(`none` models the null pointer); `normalData`, `normalEnd` and
`alignedEnd` are byte addresses (`0` models the null pointer). -/
structure Buffer where
  largerSize : ℕ
  alignedSize : ℕ
  paddedData : Option ℕ
  normalData : ℕ
  normalEnd : ℕ
  alignedEnd : ℕ
  deriving DecidableEq, Repr

/-- A default-constructed `sfz::Buffer`: all fields zero / null. -/
def Buffer.init : Buffer :=
  { largerSize := 0, alignedSize := 0, paddedData := none
    normalData := 0, normalEnd := 0, alignedEnd := 0 }

/-- Model of `Buffer::clear`: sizes are zeroed and the data pointers
nulled.  (The C++ frees `paddedData` but does not null it; the stale
address is kept in the model just as in the source.) -/
def Buffer.clear (b : Buffer) : Buffer :=
  { b with largerSize := 0, alignedSize := 0
           normalData := 0, normalEnd := 0, alignedEnd := 0 }

/-- Model of `std::align(A, size, ptr, space)`: the first address at or
after `addr` that is a multiple of `A`. -/
def alignUp (A addr : ℕ) : ℕ :=
  addr + (A - addr % A) % A

/-- Model of `Buffer::resize(newSize)` for element size `sz` and
alignment `A`.  The allocator is an oracle: `alloc = some addr` means
`malloc`/`realloc` returned the byte address `addr`, `alloc = none`
means it returned the null pointer.  Mirrors the source line by line:
`tempSize = newSize + 2 * AlignmentMask` elements are requested, the
data pointer is aligned inside the allocation, and `_alignedEnd` is set
to `normalEnd + (Alignment - endMisalignment)` **elements** when the
size is misaligned (the source adds the byte count `Alignment`, not the
lane count `TypeAlignment`, in element-pointer arithmetic). -/
def Buffer.resize (sz A : ℕ) (b : Buffer) (newSize : ℕ) (alloc : Option ℕ) :
    Bool × Buffer :=
  if newSize = 0 then
    (true, b.clear)
  else
    match alloc with
    | none => (false, b)
    | some addr =>
      let tempSize := newSize + 2 * (A - 1)
      let normalData := alignUp A addr
      let normalEnd := normalData + newSize * sz
      let typeAlignment := A / sz
      let endMisalignment := newSize &&& (typeAlignment - 1)
      let alignedEnd :=
        if endMisalignment ≠ 0 then normalEnd + (A - endMisalignment) * sz
        else normalEnd
      (true,
        { largerSize := tempSize, alignedSize := newSize
          paddedData := some addr, normalData := normalData
          normalEnd := normalEnd, alignedEnd := alignedEnd })

/-- A concrete non-empty buffer (3 elements of 4 bytes, alignment 16),
as left by a successful `resize(3)` at raw address 32. -/
def bufEx : Buffer :=
  { largerSize := 33, alignedSize := 3, paddedData := some 32
    normalData := 32, normalEnd := 44, alignedEnd := 96 }

/-! ## AudioSpan (src/src/sfizz/AudioSpan.h)

`sfz::AudioSpan<Type, MaxChannels>` holds a `std::array` of
`MaxChannels` channel pointers, a frame count and a runtime channel
count (a C++ `int`).  Channel pointers are modelled as natural-number
addresses (`0` is the null pointer); the pointer array is modelled as a
total function on `ℤ` so that reads the C++ would perform outside the
declared bounds stay expressible. -/

/-- Model of an `sfz::AudioSpan`: the channel-pointer slots, the frame
count `numFrames` (a `size_t`, default member initializer `{ 0 }`) and
the channel count `numChannels` (an `int`, default `{ 0 }`). -/
structure AudioSpan where
  spans : ℤ → ℕ
  numFrames : ℕ
  numChannels : ℤ

/-- Model of `absl::Span<Type>::npos` (`SIZE_MAX`). -/
def spanNpos : ℕ := 2 ^ 64 - 1

/-- The minimum span length computed by the loop of the
`AudioSpan(std::initializer_list<absl::Span<Type>>)` constructor: the
running `size = std::min(size, newSpan->size())` over the first
`MaxChannels` spans, started at `npos`.  The constructor computes this
value into a local variable and then discards it. -/
def minSpanSize (maxChannels : ℕ) (spans : List (ℕ × ℕ)) : ℕ :=
  (spans.take maxChannels).foldl (fun size sp => min size sp.2) spanNpos

/-- Model of the `AudioSpan(std::initializer_list<absl::Span<Type>>)`
constructor (each span given as a data pointer and a length).  The
member initializer list sets only `numChannels`; the loop copies the
first `min(spans.size(), MaxChannels)` data pointers.  `numFrames` is
never assigned, so it keeps its default member initializer `0` — the
local minimum `minSpanSize` is computed by the loop but never stored. -/
def AudioSpan.ofSpanList (maxChannels : ℕ) (l : List (ℕ × ℕ)) :
    AudioSpan :=
  { spans := fun i =>
      if 0 ≤ i ∧ i < (min l.length maxChannels : ℕ) then
        (l.getD i.toNat (0, 0)).1
      else 0
    numFrames := 0
    numChannels := l.length }

/-- Model of `AudioSpan::getNumFrames`. -/
def AudioSpan.getNumFrames (s : AudioSpan) : ℕ :=
  s.numFrames

/-- Model of `AudioSpan::getChannel`: the guarded read of a channel
pointer; past the channel count the C++ returns `{}` (a null
pointer). -/
def AudioSpan.getChannel (s : AudioSpan) (channelIndex : ℤ) : ℕ :=
  if channelIndex < s.numChannels then s.spans channelIndex else 0

/-- Model of `AudioSpan::getSpan`: a span is a data pointer plus a
length; past the channel count the C++ returns `{}` (the empty
span). -/
def AudioSpan.getSpan (s : AudioSpan) (channelIndex : ℤ) : ℕ × ℕ :=
  if channelIndex < s.numChannels then (s.spans channelIndex, s.numFrames)
  else (0, 0)

/-- Model of `AudioSpan::getConstSpan` (same body as `getSpan` with a
const element type). -/
def AudioSpan.getConstSpan (s : AudioSpan) (channelIndex : ℤ) : ℕ × ℕ :=
  if channelIndex < s.numChannels then (s.spans channelIndex, s.numFrames)
  else (0, 0)

/-- Modelled from the spec: `sfz::meanSquared` over one span
(SIMDHelpers.h, which is not under src/) — the mean of the squared
elements of the span.  `mem p j` is the sample stored at index `j` of
the buffer at address `p`. -/
def spanMeanSquared (mem : ℕ → ℕ → ℚ) (sp : ℕ × ℕ) : ℚ :=
  if sp.2 = 0 then 0
  else (∑ j ∈ Finset.range sp.2, mem sp.1 j ^ 2) / (sp.2 : ℚ)

/-- Model of `AudioSpan::meanSquared`: zero when the channel count is
zero, otherwise the loop `result += meanSquared(getConstSpan(i))` over
`0 ≤ i < numChannels` followed by the division `result /
numChannels`. -/
def AudioSpan.meanSquared (mem : ℕ → ℕ → ℚ) (s : AudioSpan) : ℚ :=
  if s.numChannels = 0 then 0
  else
    ((List.range s.numChannels.toNat).foldl
        (fun (result : ℚ) (i : ℕ) =>
          result + spanMeanSquared mem (s.getConstSpan (i : ℤ)))
        0)
      / (s.numChannels : ℚ)

/-! ## Voice (src/sfizz/Voice.cpp): argument clamping -/

/-- Model of the delay clamp at the top of `Voice::startVoice`:
`if (delay < 0) delay = 0;`. -/
def startVoiceDelay (delay : ℤ) : ℤ :=
  if delay < 0 then 0 else delay

/-! ## FilePool (src/src/sfizz/FilePool.cpp)

The filesystem and the libsndfile decoder are an external oracle: a
file name maps to `none` when `fs::exists` is false, and otherwise to
the decoder's view of the file.  A file that exists but fails to
decode is modelled by the decoder reporting a channel count of 0 (the
`SndfileHandle` of an undecodable file has no channels), which the
channel-count test rejects. -/

/-- Decoder view of one sound file: channel count, frame count and
native sample rate, as read from `SndfileHandle`. -/
structure FileInformation where
  channels : ℕ
  frames : ℕ
  sampleRate : ℚ
  deriving DecidableEq, Repr

/-- Model of `PreloadedFileHandle`: the shared `AudioBuffer` is
identified by an allocation id `bufId` (its address), `bufFrames` is
its `getNumFrames()` (the frame count *after* oversampling), and
`sampleRate` the stored rate. -/
structure PreloadedFileHandle where
  bufId : ℕ
  bufFrames : ℕ
  sampleRate : ℚ
  deriving DecidableEq, Repr

/-- Pool state for the preload path: the filesystem oracle, the
preload size, the oversampling factor, the preloaded-file map and a
fresh-allocation counter used to give each freshly read buffer a new
identity. -/
structure FilePool where
  fileSystem : String → Option FileInformation
  preloadSize : ℕ
  oversamplingFactor : ℕ
  preloadedFiles : String → Option PreloadedFileHandle
  nextBufId : ℕ

/-- Modelled from the spec: `readFromFile` (FilePool.cpp:38-62) decodes
`numFrames` frames and upsamples them by the oversampling factor using
`sfz::upsample2x/4x/8x` (Oversampler.h, not under src/); per the spec
the oversampling factor is an integer frame multiplier, so the
resulting buffer holds `numFrames * factor` frames.  In the model the
buffer is a fresh allocation identified by `freshId`. -/
def readFromFile (numFrames factor freshId : ℕ) : PreloadedFileHandle :=
  { bufId := freshId, bufFrames := numFrames * factor, sampleRate := 0 }

/-- The `framesToLoad` computation of `FilePool::preloadFile`
(FilePool.cpp:103-108): the whole file when `preloadSize == 0`, else
`min(frames, maxOffset + preloadSize)`; the sum is `uint32_t`
arithmetic. -/
def framesToLoad (preloadSize frames maxOffset : ℕ) : ℕ :=
  if preloadSize = 0 then frames
  else min frames ((maxOffset + preloadSize) % 2 ^ 32)

/-- Model of `FilePool::preloadFile(filename, maxOffset)`
(FilePool.cpp:91-119).  Returns the C++ boolean result and the new
pool state.  A missing file or a channel count other than 1 or 2
returns false.  Otherwise: if the file is already in the map, its head
is reloaded only when `framesToLoad` exceeds the *stored* (oversampled)
`getNumFrames()`, keeping the stored sample rate; a new file is
inserted with sample rate `sndFile.samplerate() * oversamplingFactor`. -/
def FilePool.preloadFile (s : FilePool) (filename : String)
    (maxOffset : ℕ) : Bool × FilePool :=
  match s.fileSystem filename with
  | none => (false, s)
  | some info =>
    if info.channels ≠ 1 ∧ info.channels ≠ 2 then (false, s)
    else
      let ftl := framesToLoad s.preloadSize info.frames maxOffset
      match s.preloadedFiles filename with
      | some handle =>
        if ftl > handle.bufFrames then
          (true,
            { s with
              preloadedFiles := fun f =>
                if f = filename then
                  some { readFromFile ftl s.oversamplingFactor s.nextBufId
                           with sampleRate := handle.sampleRate }
                else s.preloadedFiles f
              nextBufId := s.nextBufId + 1 })
        else (true, s)
      | none =>
        (true,
          { s with
            preloadedFiles := fun f =>
              if f = filename then
                some { readFromFile ftl s.oversamplingFactor s.nextBufId
                         with
                       sampleRate := info.sampleRate * s.oversamplingFactor }
              else s.preloadedFiles f
            nextBufId := s.nextBufId + 1 })

/-- The identity (address) of the preload head stored for a file, used
to observe whether a `preloadFile` call reloaded it. -/
def FilePool.headId (s : FilePool) (filename : String) : Option ℕ :=
  (s.preloadedFiles filename).map (·.bufId)

/-- The frame count of the stored preload head of a file. -/
def FilePool.headFrames (s : FilePool) (filename : String) : Option ℕ :=
  (s.preloadedFiles filename).map (·.bufFrames)

/-- A concrete pool for witnesses and counterexamples: one mono file of
100 frames at 48000 Hz under the name "a", preload size 10,
oversampling factor 2, nothing preloaded yet. -/
def poolEx : FilePool :=
  { fileSystem := fun f =>
      if f = "a" then
        some { channels := 1, frames := 100, sampleRate := 48000 }
      else none
    preloadSize := 10
    oversamplingFactor := 2
    preloadedFiles := fun _ => none
    nextBufId := 0 }

/-! ## Voice state machine (src/sfizz/Voice.cpp)

The voice state (`State::idle/playing/release`), the region pointer
(modelled as presence) and the `noteIsOff` latch, together with the
operations that can touch them.  Everything the operations consult
beyond these fields (channel/note matching, loop mode, the sustain CC
snapshot, the envelope smoothing flag, the end-of-sample test) is data
independent of the voice state and enters as boolean parameters of the
operation. -/

/-- The C++ `enum class State { idle, playing, release }`. -/
inductive VoiceState where
  | idle
  | playing
  | release
  deriving DecidableEq, Fintype, Repr

/-- The state-machine-relevant fields of `sfz::Voice`. -/
structure VoiceSt where
  state : VoiceState
  hasRegion : Bool
  noteIsOff : Bool
  deriving DecidableEq, Fintype, Repr

/-- One operation on a voice, with the data the source consults encoded
as booleans: for `registerNoteOff`, whether channel and note match,
whether the region is one-shot, and whether sustain is held
(`checkSustain && cc[sustain] >= halfCCThreshold`); for `registerCC`,
whether `checkSustain && cc == sustainCC && value < halfCCThreshold`;
for `checkOffGroup`, whether the trigger is a matching note-on of the
group; for `renderBlock`, whether `fillWithData` hits the sample end of
a non-looping region and whether the amplitude EG is still smoothing
afterwards. -/
inductive VoiceOp where
  | startVoice
  | release
  | registerNoteOff (noteMatch oneShot sustainHeld : Bool)
  | registerCC (sustainDropCond : Bool)
  | checkOffGroup (groupMatch : Bool)
  | renderBlock (hitEnd stillSmoothing : Bool)
  | reset
  deriving DecidableEq, Fintype, Repr

/-- A fresh voice: idle, no region, note not off. -/
def VoiceSt.init : VoiceSt :=
  { state := .idle, hasRegion := false, noteIsOff := false }

/-- Model of `Voice::release(delay)`: only a playing voice moves to
release (Voice.cpp:135-141). -/
def VoiceSt.releaseVoice (v : VoiceSt) : VoiceSt :=
  if v.state = .playing then { v with state := .release } else v

/-- Model of `Voice::reset()`: state idle, region null, `noteIsOff`
cleared (Voice.cpp:484-496). -/
def VoiceSt.resetVoice (_ : VoiceSt) : VoiceSt :=
  { state := .idle, hasRegion := false, noteIsOff := false }

/-- One step of the voice state machine, following the guards of the
corresponding member functions of `sfz::Voice` line by line. -/
def VoiceSt.step (v : VoiceSt) : VoiceOp → VoiceSt
  | .startVoice =>
    { v with state := .playing, hasRegion := true }
  | .release => v.releaseVoice
  | .registerNoteOff noteMatch oneShot sustainHeld =>
    if ¬ v.hasRegion then v
    else if v.state ≠ .playing then v
    else if noteMatch then
      let v1 := { v with noteIsOff := true }
      if oneShot then v1
      else if ¬ sustainHeld then v1.releaseVoice else v1
    else v
  | .registerCC sustainDropCond =>
    if ¬ v.hasRegion then v
    else if sustainDropCond ∧ v.noteIsOff then v.releaseVoice else v
  | .checkOffGroup groupMatch =>
    if v.hasRegion ∧ groupMatch then v.releaseVoice else v
  | .renderBlock hitEnd stillSmoothing =>
    if v.state = .idle ∨ ¬ v.hasRegion then v
    else
      let v1 := if v.state ≠ .release ∧ hitEnd then v.releaseVoice else v
      if ¬ stillSmoothing then v1.resetVoice else v1
  | .reset => v.resetVoice

/-- Run a sequence of operations on a voice. -/
def VoiceSt.run (v : VoiceSt) (ops : List VoiceOp) : VoiceSt :=
  ops.foldl VoiceSt.step v

/-- The set of state transitions asserted by the claim: stay put, or
idle→playing, playing→release, release→idle, playing→idle. -/
def claimAllowedTransition (s t : VoiceState) : Prop :=
  s = t ∨ (s = .idle ∧ t = .playing) ∨ (s = .playing ∧ t = .release) ∨
    (s = .release ∧ t = .idle) ∨ (s = .playing ∧ t = .idle)

/-- The transitions the code actually performs: the claimed set plus
release→playing (re-arming a releasing voice through `startVoice`,
which sets `state = State::playing` unconditionally — this is how a
stolen voice is reused). -/
def voiceTransitionOk (s t : VoiceState) : Prop :=
  claimAllowedTransition s t ∨ (s = .release ∧ t = .playing)

instance (s t : VoiceState) : Decidable (claimAllowedTransition s t) := by
  unfold claimAllowedTransition
  infer_instance

instance (s t : VoiceState) : Decidable (voiceTransitionOk s t) := by
  unfold voiceTransitionOk
  infer_instance

/-! ## Voice::fillWithData (src/sfizz/Voice.cpp:349-432)

The per-sample index and coefficient pipeline of `fillWithData`,
restricted to the non-looping branch.  Audio samples are modelled over
`ℚ`.  The SIMDHelpers used by the pipeline are not under src/ and are
modelled from the spec: `fill`/`cumsum` produce the running positions
"starting from sourcePosition + floatPositionOffset, advance by
pitchRatio · speedRatio per sample", and `sfzInterpolationCast` splits
a position into an integer index and a `[0,1)` fraction with
coefficients `(1 − fraction, fraction)`; the float→int cast is modelled
as the floor, which matches C++ truncation for the nonnegative
positions that occur here. -/

/-- Inputs of one `fillWithData` call: `stepSize` is
`pitchRatio * speedRatio`, the rest are the voice/region/source fields
read by the function. -/
structure FillParams where
  stepSize : ℚ
  floatPositionOffset : ℚ
  sourcePosition : ℤ
  trueSampleEnd : ℕ
  sourceFrames : ℕ
  numFrames : ℕ

/-- The cumulative position of output sample `j` relative to
`sourcePosition`: the cumsum of the jump buffer
(`jumps[0] = step + floatPositionOffset`, `jumps[k] = step`). -/
def readPosition (p : FillParams) (j : ℕ) : ℚ :=
  p.floatPositionOffset + ((j : ℚ) + 1) * p.stepSize

/-- The integer read index of output sample `j` before the loop/clamp
post-pass: the cast of the cumulative position plus
`sourcePosition` (`add<int>(sourcePosition, indices)`). -/
def rawIndex (p : FillParams) (j : ℕ) : ℤ :=
  p.sourcePosition + ⌊readPosition p j⌋

/-- The right interpolation coefficient of sample `j` before the
post-pass: the fractional part of the position. -/
def rawRight (p : FillParams) (j : ℕ) : ℚ :=
  readPosition p j - ⌊readPosition p j⌋

/-- The left interpolation coefficient of sample `j` before the
post-pass. -/
def rawLeft (p : FillParams) (j : ℕ) : ℚ :=
  1 - rawRight p j

/-- The last readable index,
`sampleEnd = min(region.trueSampleEnd, source.frames) − 1`
(Voice.cpp:375). -/
def sampleEnd (p : FillParams) : ℤ :=
  min (p.trueSampleEnd : ℤ) (p.sourceFrames : ℤ) - 1

/-- The first output position whose raw index exceeds `sampleEnd`: the
non-looping post-pass (Voice.cpp:385-393) scans the indices in order
and, at the first index above `sampleEnd`, overwrites the whole
remaining tail and breaks. -/
def clampPoint (p : FillParams) : Option ℕ :=
  (List.range p.numFrames).find? (fun j => sampleEnd p < rawIndex p j)

/-- The integer read index after the non-looping clamp post-pass:
positions from the clamp point on are filled with `sampleEnd`. -/
def indexAt (p : FillParams) (j : ℕ) : ℤ :=
  match clampPoint p with
  | some k => if j < k then rawIndex p j else sampleEnd p
  | none => rawIndex p j

/-- The left coefficient after the post-pass: 0 from the clamp point
on. -/
def leftCoeffAt (p : FillParams) (j : ℕ) : ℚ :=
  match clampPoint p with
  | some k => if j < k then rawLeft p j else 0
  | none => rawLeft p j

/-- The right coefficient after the post-pass: 1 from the clamp point
on. -/
def rightCoeffAt (p : FillParams) (j : ℕ) : ℚ :=
  match clampPoint p with
  | some k => if j < k then rawRight p j else 1
  | none => rawRight p j

/-- The interpolated output sample `j` of the mono loop
(Voice.cpp:402-408):
`left[j] = src[ind[j]] * leftCoeff[j] + src[ind[j] + 1] * rightCoeff[j]`.
`src` is the source channel as a total function on `ℤ` so that the read
one past `sampleEnd` stays expressible. -/
def monoOutAt (src : ℤ → ℚ) (p : FillParams) (j : ℕ) : ℚ :=
  src (indexAt p j) * leftCoeffAt p j
    + src (indexAt p j + 1) * rightCoeffAt p j

/-- Concrete `fillWithData` inputs: unit pitch, no fractional offset,
start at frame 0, `trueSampleEnd = 2` within a 5-frame source, 3 output
frames. -/
def fillEx : FillParams :=
  { stepSize := 1, floatPositionOffset := 0, sourcePosition := 0
    trueSampleEnd := 2, sourceFrames := 5, numFrames := 3 }

/-- A concrete mono source channel: frame 1 holds 10, frame 2 holds
99 (the frame one past `sampleEnd`), all other memory reads 0. -/
def srcEx : ℤ → ℚ := fun i =>
  if i = 1 then 10 else if i = 2 then 99 else 0

/-! ## FilePool::cleanupPromises (src/src/sfizz/FilePool.cpp:199-220)

Promises are identified by natural numbers.  A `shared_ptr` reference
count is the number of places holding the promise: `ext p` counts the
references held outside `temporaryFilePromises` and `promisesToClean`
(voices, the queues), fixed during the call; the two lists contribute
their occurrence counts.  `use_count() == 1` at the sweep's probe means
`ext p = 0` and the probed list entry is the only list occurrence. -/

/-- The `use_count()` observed for promise `p` while the pool holds the
lists `temp` (`temporaryFilePromises`) and `toClean`
(`promisesToClean`). -/
def useCount (ext : ℕ → ℕ) (temp toClean : List ℕ) (p : ℕ) : ℕ :=
  ext p + temp.count p + toClean.count p

/-- The sweep loop of `cleanupPromises` (FilePool.cpp:208-219): starting
from `promiseIterator` at position `i`, an entry whose observed
`use_count()` is one is pushed onto `promisesToClean`, swapped with the
sentinel (the current last element) and popped from the back, without
advancing the iterator; any other entry just advances the iterator. -/
def sweepPromises (ext : ℕ → ℕ) (temp toClean : List ℕ) (i : ℕ) :
    List ℕ × List ℕ :=
  if h : i < temp.length then
    if useCount ext temp toClean (temp.get ⟨i, h⟩) = 1 then
      sweepPromises ext
        ((temp.set i
            (temp.getLast (List.ne_nil_of_length_pos (by omega)))).dropLast)
        (toClean ++ [temp.get ⟨i, h⟩]) i
    else
      sweepPromises ext temp toClean (i + 1)
  else (temp, toClean)
termination_by temp.length - i
decreasing_by
  · simp only [List.length_dropLast, List.length_set]
    omega
  · omega

/-- Model of one `FilePool::cleanupPromises` call: the `filled` queue is
drained into the linear list (`temporaryFilePromises.push_back` in
order), then the sweep runs from the beginning of the list. -/
def cleanupPromises (ext : ℕ → ℕ) (filled temp toClean : List ℕ) :
    List ℕ × List ℕ :=
  sweepPromises ext (temp ++ filled) toClean 0

/-- The divisors of 4, 8 and 16 are powers of two; hence so is the lane
count `A / sz`. -/
theorem typeAlignment_pow_two {sz A : ℕ} (hsz : 0 < sz) (hdvd : sz ∣ A)
    (hA : A = 4 ∨ A = 8 ∨ A = 16) : ∃ k, A / sz = 2 ^ k := by
  have ha : ∃ a, A = 2 ^ a := by
    rcases hA with h | h | h
    · exact ⟨2, by omega⟩
    · exact ⟨3, by omega⟩
    · exact ⟨4, by omega⟩
  obtain ⟨a, ha⟩ := ha
  obtain ⟨j, hj, hsz2⟩ := (Nat.dvd_prime_pow Nat.prime_two).mp (ha ▸ hdvd)
  refine ⟨a - j, ?_⟩
  subst ha hsz2
  rw [Nat.pow_div hj (by norm_num)]

/-- C3 (counterexample): for element size 4 and alignment 16 (lane
count 4), a successful `resize(5)` on a fresh buffer allocated at raw
address 0 puts `alignedEnd` at byte 80, while the claimed formula
`data + ceil(N / vectorLanes) · vectorLanes` puts it at byte
`ceil(5/4) · 4` elements `= 32`. -/
theorem buffer_resize_alignedEnd_cex :
    (Buffer.resize 4 16 Buffer.init 5 (some 0)).1 = true ∧
    (Buffer.resize 4 16 Buffer.init 5 (some 0)).2.normalData = 0 ∧
    (Buffer.resize 4 16 Buffer.init 5 (some 0)).2.alignedEnd = 80 ∧
    ((5 + 16 / 4 - 1) / (16 / 4) * (16 / 4)) * 4 = 32 ∧
    (80 : ℕ) ≠ 32 := by
  refine ⟨by decide, by decide, by decide, by norm_num, by norm_num⟩

/-- Unfolding of `Buffer.resize` on a successful allocation. -/
theorem Buffer.resize_some (sz A : ℕ) (b : Buffer) (N addr : ℕ)
    (hN : N ≠ 0) :
    Buffer.resize sz A b N (some addr) =
      (true,
        { largerSize := N + 2 * (A - 1), alignedSize := N
          paddedData := some addr, normalData := alignUp A addr
          normalEnd := alignUp A addr + N * sz
          alignedEnd := if N &&& (A / sz - 1) ≠ 0
            then alignUp A addr + N * sz + (A - (N &&& (A / sz - 1))) * sz
            else alignUp A addr + N * sz }) := by
  simp [Buffer.resize, hN]

/-- C3 (amended): after every successful `resize(N)` with `N > 0`,
`end = data + N` elements, and `alignedEnd = end` when `N` is a
multiple of the lane count `A / sz`, else
`alignedEnd = end + (A − N mod (A / sz))` **elements** (the source adds
the byte count `Alignment`, not the lane count, to round up); in
particular `data ≤ end ≤ alignedEnd` and the byte distance
`alignedEnd − data` is a multiple of the alignment. -/
theorem buffer_resize_alignedEnd_ok (sz A N : ℕ) (hsz : 0 < sz)
    (hdvd : sz ∣ A) (hA : A = 4 ∨ A = 8 ∨ A = 16)
    (b : Buffer) (addr : ℕ) (hN : 0 < N) :
    (Buffer.resize sz A b N (some addr)).1 = true ∧
    (Buffer.resize sz A b N (some addr)).2.normalEnd
      = (Buffer.resize sz A b N (some addr)).2.normalData + N * sz ∧
    (Buffer.resize sz A b N (some addr)).2.alignedEnd
      = (Buffer.resize sz A b N (some addr)).2.normalEnd
        + (if N % (A / sz) ≠ 0 then (A - N % (A / sz)) * sz else 0) ∧
    (Buffer.resize sz A b N (some addr)).2.normalData
      ≤ (Buffer.resize sz A b N (some addr)).2.normalEnd ∧
    (Buffer.resize sz A b N (some addr)).2.normalEnd
      ≤ (Buffer.resize sz A b N (some addr)).2.alignedEnd ∧
    ((Buffer.resize sz A b N (some addr)).2.alignedEnd
      - (Buffer.resize sz A b N (some addr)).2.normalData) % A = 0 := by
  obtain ⟨k, hk⟩ := typeAlignment_pow_two hsz hdvd hA
  have hland : N &&& (A / sz - 1) = N % (A / sz) := by
    rw [hk, Nat.and_pow_two_sub_one_eq_mod]
  have hTApos : 0 < A / sz := by
    rw [hk]; exact Nat.pos_pow_of_pos k (by norm_num)
  have hApos : 0 < A := by rcases hA with h | h | h <;> omega
  have hTAA : A / sz * sz = A := Nat.div_mul_cancel hdvd
  rw [Buffer.resize_some sz A b N addr hN.ne', hland]
  refine ⟨rfl, rfl, ?_, Nat.le_add_right _ _, ?_, ?_⟩
  · split <;> simp
  · split <;> simp
  · have hdm := Nat.div_add_mod N (A / sz)
    have hmlt : N % (A / sz) < A / sz := Nat.mod_lt _ hTApos
    have hTAle : A / sz ≤ A := Nat.div_le_self A sz
    by_cases hmis : N % (A / sz) = 0
    · rw [if_neg (by simp [hmis])]
      simp only [Nat.add_sub_cancel_left]
      have hm : N = A / sz * (N / (A / sz)) := by omega
      rw [hm, mul_comm (A / sz) (N / (A / sz)), mul_assoc, hTAA]
      exact Nat.mul_mod_left _ A
    · rw [if_pos hmis]
      have h1 : alignUp A addr + N * sz + (A - N % (A / sz)) * sz
          - alignUp A addr = N * sz + (A - N % (A / sz)) * sz := by omega
      rw [h1, ← Nat.add_mul]
      have h2 : N + (A - N % (A / sz)) = A / sz * (N / (A / sz)) + A := by
        omega
      rw [h2, Nat.add_mul, mul_comm (A / sz) (N / (A / sz)), mul_assoc,
        hTAA]
      have h3 : N / (A / sz) * A + A * sz = A * (N / (A / sz) + sz) := by
        ring
      rw [h3]
      exact Nat.mul_mod_right A _

/-- Witness for `buffer_resize_alignedEnd_ok` at `sz = 4`, `A = 16`,
`N = 5`, raw address 0. -/
theorem buffer_resize_alignedEnd_ok_witness :
    (Buffer.resize 4 16 Buffer.init 5 (some 0)).1 = true ∧
    (Buffer.resize 4 16 Buffer.init 5 (some 0)).2.normalEnd
      = (Buffer.resize 4 16 Buffer.init 5 (some 0)).2.normalData + 5 * 4 ∧
    (Buffer.resize 4 16 Buffer.init 5 (some 0)).2.alignedEnd
      = (Buffer.resize 4 16 Buffer.init 5 (some 0)).2.normalEnd
        + (if 5 % (16 / 4) ≠ 0 then (16 - 5 % (16 / 4)) * 4 else 0) ∧
    (Buffer.resize 4 16 Buffer.init 5 (some 0)).2.normalData
      ≤ (Buffer.resize 4 16 Buffer.init 5 (some 0)).2.normalEnd ∧
    (Buffer.resize 4 16 Buffer.init 5 (some 0)).2.normalEnd
      ≤ (Buffer.resize 4 16 Buffer.init 5 (some 0)).2.alignedEnd ∧
    ((Buffer.resize 4 16 Buffer.init 5 (some 0)).2.alignedEnd
      - (Buffer.resize 4 16 Buffer.init 5 (some 0)).2.normalData) % 16
      = 0 :=
  buffer_resize_alignedEnd_ok 4 16 5 (by norm_num) (by norm_num)
    (by norm_num) Buffer.init 0 (by norm_num)

/-- C4 (amended): when the allocation inside `resize(N)` with `N > 0`
fails, `resize` returns `false` and leaves the buffer completely
unchanged — previous contents intact whether or not the buffer was
empty; it is never cleared. -/
theorem buffer_resize_alloc_failure (sz A : ℕ) (b : Buffer) (N : ℕ)
    (hN : 0 < N) :
    Buffer.resize sz A b N none = (false, b) := by
  simp [Buffer.resize, hN.ne']

/-- Witness for `buffer_resize_alloc_failure` on a concrete non-empty
buffer. -/
theorem buffer_resize_alloc_failure_witness :
    Buffer.resize 4 16 bufEx 5 none = (false, bufEx) :=
  buffer_resize_alloc_failure 4 16 bufEx 5 (by norm_num)

/-- C4 (counterexample): a failing `resize(5)` on the non-empty buffer
`bufEx` returns `false` but does *not* clear it — afterwards the size
is still 3 and the data pointer is still non-null, contradicting the
claim that a non-empty buffer is left cleared (size 0, null data). -/
theorem buffer_resize_alloc_failure_cex :
    (Buffer.resize 4 16 bufEx 5 none).1 = false ∧
    ¬ ((Buffer.resize 4 16 bufEx 5 none).2.alignedSize = 0 ∧
       (Buffer.resize 4 16 bufEx 5 none).2.normalData = 0) := by
  decide

/-- C1: the `AudioSpan(std::initializer_list<absl::Span<Type>>)`
constructor never stores the minimum span length it computes, so
`getNumFrames()` is the default `0` and not the minimum of the source
span lengths: for the two spans of lengths 3 and 2 the frame count is
`0`, not `min 3 2 = 2`. -/
theorem audioSpan_ofSpanList_numFrames_zero :
    (AudioSpan.ofSpanList 2 [(100, 3), (200, 2)]).getNumFrames = 0 ∧
    minSpanSize 2 [(100, 3), (200, 2)] = 2 ∧
    (AudioSpan.ofSpanList 2 [(100, 3), (200, 2)]).getNumFrames
      ≠ minSpanSize 2 [(100, 3), (200, 2)] := by
  refine ⟨rfl, by decide, by decide⟩

/-- A sum-of-a-function form for the running-accumulator loops of
AudioSpan. -/
theorem foldl_range_add (f : ℕ → ℚ) (n : ℕ) :
    (List.range n).foldl (fun a i => a + f i) 0
      = ∑ i ∈ Finset.range n, f i := by
  induction n with
  | zero => simp
  | succ n ih =>
    rw [List.range_succ, List.foldl_append, Finset.sum_range_succ, ih]
    simp

/-- C10: `AudioSpan::meanSquared` returns 0 when the channel count is
zero without performing the division, and for a positive channel count
returns the sum of the per-channel mean squares divided by the channel
count. -/
theorem audioSpan_meanSquared_guarded (mem : ℕ → ℕ → ℚ) (s : AudioSpan) :
    (s.numChannels = 0 → s.meanSquared mem = 0) ∧
    (0 < s.numChannels →
      s.meanSquared mem
        = (∑ i ∈ Finset.range s.numChannels.toNat,
            spanMeanSquared mem (s.getConstSpan (i : ℤ)))
          / (s.numChannels : ℚ)) := by
  constructor
  · intro h
    simp [AudioSpan.meanSquared, h]
  · intro h
    rw [AudioSpan.meanSquared, if_neg (by omega),
      foldl_range_add (fun i => spanMeanSquared mem (s.getConstSpan (i : ℤ)))]

/-- Witness for `audioSpan_meanSquared_guarded` on a concrete
two-channel span. -/
theorem audioSpan_meanSquared_guarded_witness :
    (AudioSpan.ofSpanList 2 [(100, 3), (200, 2)]).meanSquared
        (fun _ _ => 1)
      = (∑ i ∈ Finset.range
            (AudioSpan.ofSpanList 2 [(100, 3), (200, 2)]).numChannels.toNat,
          spanMeanSquared (fun _ _ => 1)
            ((AudioSpan.ofSpanList 2 [(100, 3), (200, 2)]).getConstSpan
              (i : ℤ)))
        / ((AudioSpan.ofSpanList 2 [(100, 3), (200, 2)]).numChannels : ℚ) :=
  (audioSpan_meanSquared_guarded (fun _ _ => 1)
    (AudioSpan.ofSpanList 2 [(100, 3), (200, 2)])).2 (by decide)

/-- C9: invalid arguments are clamped, not propagated: the negative
delay passed to `Voice::startVoice` is clamped to 0 (nonnegative delays
pass through), and the per-channel accessors `getChannel`, `getSpan`
and `getConstSpan` return a null pointer / empty span for any channel
index that is not below the channel count; all the modelled functions
are total, mirroring the `noexcept` audio boundary. -/
theorem invalid_arguments_clamped (d : ℤ) (s : AudioSpan) (i : ℤ) :
    (0 ≤ startVoiceDelay d ∧ (d < 0 → startVoiceDelay d = 0) ∧
      (0 ≤ d → startVoiceDelay d = d)) ∧
    (¬ i < s.numChannels →
      s.getChannel i = 0 ∧ s.getSpan i = (0, 0) ∧
        s.getConstSpan i = (0, 0)) := by
  refine ⟨⟨?_, ?_, ?_⟩, ?_⟩
  · rw [startVoiceDelay]; split <;> omega
  · intro h; rw [startVoiceDelay, if_pos h]
  · intro h; rw [startVoiceDelay, if_neg (by omega)]
  · intro h
    refine ⟨?_, ?_, ?_⟩ <;>
      simp [AudioSpan.getChannel, AudioSpan.getSpan, AudioSpan.getConstSpan,
        h]

/-- C5: `FilePool::preloadFile` returns false exactly when the file is
missing or its channel count is neither 1 nor 2 (a file that fails to
decode surfaces as channel count 0 and is caught by the same test); in
every other case it returns true. -/
theorem filePool_preloadFile_false_iff (s : FilePool) (f : String)
    (off : ℕ) :
    (s.preloadFile f off).1 = false ↔
      (s.fileSystem f = none ∨
        ∃ info, s.fileSystem f = some info ∧
          info.channels ≠ 1 ∧ info.channels ≠ 2) := by
  cases hfs : s.fileSystem f with
  | none => simp [FilePool.preloadFile, hfs]
  | some info =>
    by_cases hch : info.channels ≠ 1 ∧ info.channels ≠ 2
    · simp [FilePool.preloadFile, hfs, hch]
    · simp only [FilePool.preloadFile, hfs, if_neg hch]
      cases hpre : s.preloadedFiles f with
      | none => simp [hfs, hch]
      | some handle =>
        by_cases hgt : handle.bufFrames <
            framesToLoad s.preloadSize info.frames off
        · simp [hgt, hfs, hch]
        · simp [hgt, hfs, hch]

/-- C6 (counterexample): with oversampling ×2, preload size 10 and a
100-frame mono file, a first `preloadFile("a", 0)` stores a head of
10 file frames (20 frames after oversampling); a second
`preloadFile("a", 5)` requests the strictly larger prefix
`min(100, 5 + 10) = 15 > 10` but does *not* reload: the stored head
pointer is unchanged, because the code compares the requested file
frames against the oversampled stored frame count (15 ≤ 20). -/
theorem filePool_preload_extend_cex :
    (FilePool.preloadFile poolEx "a" 0).1 = true ∧
    ((FilePool.preloadFile poolEx "a" 0).2.headFrames "a" = some 20) ∧
    framesToLoad poolEx.preloadSize 100 0 = 10 ∧
    framesToLoad poolEx.preloadSize 100 5 = 15 ∧ 15 > 10 ∧
    (FilePool.preloadFile (FilePool.preloadFile poolEx "a" 0).2 "a" 5).2.headId
        "a"
      = (FilePool.preloadFile poolEx "a" 0).2.headId "a" := by
  decide

/-- C6 (amended): for a file already present in the map, `preloadFile`
reloads the head iff the newly requested frame count exceeds the
*stored oversampled* frame count of the resident head (so with
oversampling ×1 this is exactly "strictly larger prefix", while under a
larger factor a request of up to factor × the resident prefix is a
no-op); and calling `preloadFile` twice with identical arguments leaves
the stored head pointer unchanged. -/
theorem filePool_preload_reload_iff (s : FilePool) (f : String) (off : ℕ)
    (hos : 0 < s.oversamplingFactor) :
    (∀ info handle, s.fileSystem f = some info →
      (info.channels = 1 ∨ info.channels = 2) →
      s.preloadedFiles f = some handle →
      handle.bufId < s.nextBufId →
      (((s.preloadFile f off).2.headId f ≠ s.headId f) ↔
        framesToLoad s.preloadSize info.frames off > handle.bufFrames)) ∧
    (FilePool.preloadFile (s.preloadFile f off).2 f off).2.headId f
      = (s.preloadFile f off).2.headId f := by
  constructor
  · intro info handle hfs hch hpre hid
    have hch' : ¬ (info.channels ≠ 1 ∧ info.channels ≠ 2) := by tauto
    simp only [FilePool.preloadFile, hfs, if_neg hch', hpre]
    by_cases hgt : handle.bufFrames <
        framesToLoad s.preloadSize info.frames off
    · rw [if_pos hgt]
      refine ⟨fun _ => hgt, fun _ => ?_⟩
      simp [FilePool.headId, hpre, readFromFile]
      omega
    · rw [if_neg hgt]
      simp [hgt]
  · cases hfs : s.fileSystem f with
    | none => simp [FilePool.preloadFile, hfs]
    | some info =>
      by_cases hch : info.channels ≠ 1 ∧ info.channels ≠ 2
      · simp [FilePool.preloadFile, hfs, hch]
      · have hle : ¬ (framesToLoad s.preloadSize info.frames off
              * s.oversamplingFactor <
            framesToLoad s.preloadSize info.frames off) :=
          not_lt.mpr (Nat.le_mul_of_pos_right _ hos)
        cases hpre : s.preloadedFiles f with
        | none =>
          simp only [FilePool.preloadFile, hfs, if_neg hch, hpre]
          simp [FilePool.preloadFile, hfs, if_neg hch, readFromFile, hle]
        | some handle =>
          by_cases hgt : handle.bufFrames <
              framesToLoad s.preloadSize info.frames off
          · simp only [FilePool.preloadFile, hfs, if_neg hch, hpre,
              if_pos hgt]
            simp [FilePool.preloadFile, hfs, if_neg hch, readFromFile, hle]
          · simp only [FilePool.preloadFile, hfs, if_neg hch, hpre,
              if_neg hgt]

/-- Witness for `filePool_preload_reload_iff` on `poolEx` after one
preload of file "a". -/
theorem filePool_preload_reload_iff_witness :
    ((((FilePool.preloadFile poolEx "a" 0).2.preloadFile "a" 5).2.headId "a"
        ≠ (FilePool.preloadFile poolEx "a" 0).2.headId "a") ↔
      framesToLoad (FilePool.preloadFile poolEx "a" 0).2.preloadSize 100 5
        > 20) ∧
    (FilePool.preloadFile
        ((FilePool.preloadFile poolEx "a" 0).2.preloadFile "a" 5).2 "a"
        5).2.headId "a"
      = ((FilePool.preloadFile poolEx "a" 0).2.preloadFile "a" 5).2.headId
          "a" :=
  ⟨(filePool_preload_reload_iff (FilePool.preloadFile poolEx "a" 0).2 "a" 5
      (by norm_num [FilePool.preloadFile, poolEx, framesToLoad,
        readFromFile])).1
    { channels := 1, frames := 100, sampleRate := 48000 }
    { bufId := 0, bufFrames := 20, sampleRate := 96000 }
    (by norm_num [FilePool.preloadFile, poolEx, framesToLoad, readFromFile])
    (by norm_num)
    (by norm_num [FilePool.preloadFile, poolEx, framesToLoad, readFromFile])
    (by norm_num [FilePool.preloadFile, poolEx, framesToLoad,
      readFromFile]),
   (filePool_preload_reload_iff (FilePool.preloadFile poolEx "a" 0).2 "a" 5
      (by norm_num [FilePool.preloadFile, poolEx, framesToLoad,
        readFromFile])).2⟩

/-- C2: evaluation of the clamp path at a concrete input.  With
`sampleEnd = min(2, 5) − 1 = 1`, output position 1 has raw index
`2 > sampleEnd`, is clamped to `sampleEnd` with coefficients `(0, 1)` —
that part of the claim holds — but the interpolated output is then
`src[sampleEnd] * 0 + src[sampleEnd + 1] * 1 = src[sampleEnd + 1] = 99`,
the frame one *past* the clamped index, not `src[sampleEnd] = 10`: the
sample does not hold at the last frame. -/
theorem fillWithData_clamp_reads_past_end :
    sampleEnd fillEx = 1 ∧
    rawIndex fillEx 1 = 2 ∧
    indexAt fillEx 1 = sampleEnd fillEx ∧
    leftCoeffAt fillEx 1 = 0 ∧
    rightCoeffAt fillEx 1 = 1 ∧
    monoOutAt srcEx fillEx 1 = srcEx (sampleEnd fillEx + 1) ∧
    monoOutAt srcEx fillEx 1 ≠ srcEx (sampleEnd fillEx) := by
  have hse : sampleEnd fillEx = 1 := by norm_num [sampleEnd, fillEx]
  have hp0 : readPosition fillEx 0 = 1 := by norm_num [readPosition, fillEx]
  have hp1 : readPosition fillEx 1 = 2 := by norm_num [readPosition, fillEx]
  have hr0 : rawIndex fillEx 0 = 1 := by
    rw [rawIndex, hp0]; norm_num [fillEx]
  have hr1 : rawIndex fillEx 1 = 2 := by
    rw [rawIndex, hp1]; norm_num [fillEx]
  have e0 : decide (sampleEnd fillEx < rawIndex fillEx 0) = false := by
    rw [decide_eq_false_iff_not, hse, hr0]; norm_num
  have e1 : decide (sampleEnd fillEx < rawIndex fillEx 1) = true := by
    rw [decide_eq_true_eq, hse, hr1]; norm_num
  have hcp : clampPoint fillEx = some 1 := by
    rw [clampPoint,
      show List.range fillEx.numFrames = [0, 1, 2] from rfl]
    simp [List.find?, e0, e1]
  have hidx : indexAt fillEx 1 = sampleEnd fillEx := by
    rw [indexAt, hcp]; norm_num
  have hleft : leftCoeffAt fillEx 1 = 0 := by
    rw [leftCoeffAt, hcp]; norm_num
  have hright : rightCoeffAt fillEx 1 = 1 := by
    rw [rightCoeffAt, hcp]; norm_num
  have hout : monoOutAt srcEx fillEx 1 = 99 := by
    rw [monoOutAt, hidx, hleft, hright, hse]
    norm_num [srcEx]
  refine ⟨hse, hr1, hidx, hleft, hright, ?_, ?_⟩
  · rw [hout, hse]; norm_num [srcEx]
  · rw [hout, hse]; norm_num [srcEx]

/-- C8 (counterexample): from a fresh voice, the sequence
`startVoice; release; startVoice` reaches the release state and then
re-arms, performing the transition release→playing, which is not in the
claimed transition set (`startVoice` sets `state = State::playing`
unconditionally, Voice.cpp:54). -/
theorem voice_release_restart_cex :
    (VoiceSt.run VoiceSt.init [.startVoice, .release]).state
      = .release ∧
    (VoiceSt.run VoiceSt.init [.startVoice, .release, .startVoice]).state
      = .playing ∧
    ¬ claimAllowedTransition .release .playing := by
  decide

/-- C8 (amended): every operation moves the voice state along one of
idle→playing or release→playing (via `startVoice`), playing→release
(via `release`, also reached from `registerNoteOff`, `registerCC`,
`checkOffGroup` and `renderBlock`), playing→idle or release→idle (via
`reset`, also from `renderBlock`), or leaves it unchanged; in
particular a voice in the idle state never transitions to the release
state. -/
theorem voice_transitions_ok (v : VoiceSt) (op : VoiceOp) :
    voiceTransitionOk v.state (v.step op).state ∧
    (v.state = .idle → (v.step op).state ≠ .release) := by
  revert v op
  decide

/-- Witness for `voice_transitions_ok` at the fresh voice and
`startVoice`. -/
theorem voice_transitions_ok_witness :
    voiceTransitionOk VoiceSt.init.state
      (VoiceSt.init.step .startVoice).state ∧
    (VoiceSt.init.state = .idle →
      (VoiceSt.init.step .startVoice).state ≠ .release) :=
  voice_transitions_ok VoiceSt.init .startVoice

/-- Setting an entry to its own value is the identity. -/
theorem list_set_get_self (l : List ℕ) (i : ℕ) (h : i < l.length) :
    l.set i (l.get ⟨i, h⟩) = l := by
  apply List.ext_getElem
  · simp
  · intro n h1 h2
    simp only [List.get_eq_getElem, List.getElem_set]
    split <;> simp_all

/-- Decomposition of a list at index `i`. -/
theorem list_eq_take_cons_drop (l : List ℕ) (i : ℕ) (h : i < l.length) :
    l = l.take i ++ l.get ⟨i, h⟩ :: l.drop (i + 1) := by
  conv_lhs => rw [← list_set_get_self l i h]
  exact List.set_eq_take_cons_drop _ h

/-- Inserting `x` in the middle and appending `y` is a permutation of
prepending `x` with `y` in the middle. -/
theorem perm_swap_insert (x y : ℕ) (T D : List ℕ) :
    List.Perm (x :: (T ++ y :: D)) ((T ++ x :: D) ++ [y]) := by
  have h1 : (T ++ x :: D) ++ [y] = T ++ x :: (D ++ [y]) := by simp
  rw [h1]
  refine List.Perm.symm (List.Perm.trans List.perm_middle ?_)
  exact List.Perm.cons x
    (List.Perm.append_left T (List.perm_append_singleton y D))

/-- The swap-with-sentinel removal of `cleanupPromises`: replacing entry
`i` by the last element and popping the back removes exactly the entry
at `i`, as a permutation. -/
theorem swapRemove_perm (l : List ℕ) (i : ℕ) (hi : i < l.length)
    (hne : l ≠ []) :
    List.Perm (l.get ⟨i, hi⟩ :: (l.set i (l.getLast hne)).dropLast) l := by
  obtain ⟨y, hy⟩ : ∃ y, l.getLast hne = y := ⟨_, rfl⟩
  rw [hy]
  rcases Nat.lt_or_ge i (l.length - 1) with hlt | hge
  · have h2 : i < l.dropLast.length := by
      simp only [List.length_dropLast]
      omega
    have hdec : l.dropLast ++ [y] = l := by
      rw [← hy]
      exact List.dropLast_append_getLast hne
    have hset : l.set i y = l.dropLast.set i y ++ [y] := by
      conv_lhs => rw [← hdec]
      exact List.set_append_left _ _ h2
    have hx : l.dropLast.get ⟨i, h2⟩ = l.get ⟨i, hi⟩ := by
      simp [List.get_eq_getElem, List.getElem_dropLast]
    have hTD : l.dropLast
        = l.dropLast.take i ++ l.get ⟨i, hi⟩ :: l.dropLast.drop (i + 1) := by
      conv_lhs => rw [list_eq_take_cons_drop l.dropLast i h2]
      rw [hx]
    have hsetTD : l.dropLast.set i y
        = l.dropLast.take i ++ y :: l.dropLast.drop (i + 1) :=
      List.set_eq_take_cons_drop _ h2
    rw [hset, List.dropLast_concat, hsetTD]
    conv_rhs => rw [← hdec, hTD]
    exact perm_swap_insert _ _ _ _
  · have hieq : i = l.length - 1 := by omega
    subst hieq
    have hx : l.get ⟨l.length - 1, hi⟩ = y := by
      rw [← hy, List.getLast_eq_getElem, List.get_eq_getElem]
    have hset : l.set (l.length - 1) y = l := by
      rw [← hx]
      exact list_set_get_self l _ hi
    rw [hset, hx]
    conv_rhs => rw [← List.dropLast_append_getLast hne, hy]
    exact (List.perm_append_singleton _ _).symm

/-- The sweep removal step does not disturb the already-examined prefix
of the list. -/
theorem take_swapRemove (l : List ℕ) (i : ℕ) (hi : i < l.length)
    (hne : l ≠ []) :
    ((l.set i (l.getLast hne)).dropLast).take i = l.take i := by
  apply List.ext_getElem
  · simp only [List.length_take, List.length_dropLast, List.length_set]
    omega
  · intro n h1 h2
    have hn : n < i := by
      simp only [List.length_take, List.length_dropLast,
        List.length_set] at h1
      omega
    simp only [List.getElem_take, List.getElem_dropLast, List.getElem_set]
    rw [if_neg (by omega)]

/-- The sweep stops when the iterator reaches the end of the list. -/
theorem sweepPromises_stop (ext : ℕ → ℕ) (temp toClean : List ℕ) (i : ℕ)
    (h : ¬ i < temp.length) :
    sweepPromises ext temp toClean i = (temp, toClean) := by
  rw [sweepPromises.eq_def]
  simp [h]

/-- The sweep's removal step: a probed entry with `use_count() == 1` is
pushed to the to-clean list, swapped with the sentinel and popped. -/
theorem sweepPromises_remove (ext : ℕ → ℕ) (temp toClean : List ℕ)
    (i : ℕ) (h : i < temp.length) (hne : temp ≠ [])
    (hc : useCount ext temp toClean (temp.get ⟨i, h⟩) = 1) :
    sweepPromises ext temp toClean i
      = sweepPromises ext ((temp.set i (temp.getLast hne)).dropLast)
          (toClean ++ [temp.get ⟨i, h⟩]) i := by
  rw [sweepPromises.eq_def]
  rw [List.get_eq_getElem] at hc
  simp [h, hc]

/-- The sweep's retention step: a probed entry with a larger
`use_count()` stays and the iterator advances. -/
theorem sweepPromises_keep (ext : ℕ → ℕ) (temp toClean : List ℕ)
    (i : ℕ) (h : i < temp.length)
    (hc : ¬ useCount ext temp toClean (temp.get ⟨i, h⟩) = 1) :
    sweepPromises ext temp toClean i
      = sweepPromises ext temp toClean (i + 1) := by
  rw [sweepPromises.eq_def]
  rw [List.get_eq_getElem] at hc
  simp [h, hc]

/-- Full specification of the sweep, by induction on the remaining
fuel `n ≥ temp.length − i`: occurrences are conserved between the two
lists, no promise with observed count one survives in the list, every
promise whose count is not one keeps all its occurrences in both lists,
and only promises with count one are ever appended to the to-clean
list.  The hypothesis `H` records that the already-examined prefix
contains no count-one promise. -/
theorem sweepPromises_spec (ext : ℕ → ℕ) (n : ℕ) :
    ∀ (temp toClean : List ℕ) (i : ℕ),
      temp.length - i ≤ n →
      (∀ p ∈ temp.take i, useCount ext temp toClean p ≠ 1) →
      (∀ q, (sweepPromises ext temp toClean i).1.count q
          + (sweepPromises ext temp toClean i).2.count q
          = temp.count q + toClean.count q) ∧
      (∀ p ∈ (sweepPromises ext temp toClean i).1,
        useCount ext (sweepPromises ext temp toClean i).1
          (sweepPromises ext temp toClean i).2 p ≠ 1) ∧
      (∀ q, useCount ext temp toClean q ≠ 1 →
        (sweepPromises ext temp toClean i).1.count q = temp.count q ∧
        (sweepPromises ext temp toClean i).2.count q = toClean.count q) ∧
      (∀ q, toClean.count q < (sweepPromises ext temp toClean i).2.count q →
        useCount ext temp toClean q = 1) := by
  induction n with
  | zero =>
    intro temp toClean i hfuel H
    have hge : ¬ i < temp.length := by omega
    rw [sweepPromises_stop ext temp toClean i hge]
    refine ⟨fun q => rfl, ?_, fun q _ => ⟨rfl, rfl⟩,
      fun q hq => absurd hq (by simp)⟩
    intro p hp
    exact H p (by rw [List.take_of_length_le (by omega)]; exact hp)
  | succ n ih =>
    intro temp toClean i hfuel H
    by_cases hlt : i < temp.length
    · have hne : temp ≠ [] := List.ne_nil_of_length_pos (by omega)
      by_cases hc : useCount ext temp toClean (temp.get ⟨i, hlt⟩) = 1
      · rw [sweepPromises_remove ext temp toClean i hlt hne hc]
        have hperm := swapRemove_perm temp i hlt hne
        have hcnt : ∀ q, ((temp.set i (temp.getLast hne)).dropLast).count q
            + (if temp.get ⟨i, hlt⟩ = q then 1 else 0) = temp.count q := by
          intro q
          have hc2 := hperm.count_eq q
          rw [List.count_cons] at hc2
          simpa using hc2
        have hclean : ∀ q, (toClean ++ [temp.get ⟨i, hlt⟩]).count q
            = toClean.count q + (if temp.get ⟨i, hlt⟩ = q then 1 else 0) := by
          intro q
          simp [List.count_append, List.count_cons]
        have husePres : ∀ q,
            useCount ext ((temp.set i (temp.getLast hne)).dropLast)
              (toClean ++ [temp.get ⟨i, hlt⟩]) q
            = useCount ext temp toClean q := by
          intro q
          have h1 := hcnt q
          have h2 := hclean q
          unfold useCount
          omega
        have H' : ∀ p ∈ ((temp.set i (temp.getLast hne)).dropLast).take i,
            useCount ext ((temp.set i (temp.getLast hne)).dropLast)
              (toClean ++ [temp.get ⟨i, hlt⟩]) p ≠ 1 := by
          intro p hp
          rw [husePres p]
          apply H
          rw [take_swapRemove temp i hlt hne] at hp
          exact hp
        have hfuel' : ((temp.set i (temp.getLast hne)).dropLast).length - i
            ≤ n := by
          simp only [List.length_dropLast, List.length_set]
          omega
        obtain ⟨ih1, ih2, ih3, ih4⟩ :=
          ih ((temp.set i (temp.getLast hne)).dropLast)
            (toClean ++ [temp.get ⟨i, hlt⟩]) i hfuel' H'
        refine ⟨?_, ih2, ?_, ?_⟩
        · intro q
          have h1 := ih1 q
          have h2 := hcnt q
          have h3 := hclean q
          omega
        · intro q hq
          have hq' : useCount ext ((temp.set i (temp.getLast hne)).dropLast)
              (toClean ++ [temp.get ⟨i, hlt⟩]) q ≠ 1 := by
            rw [husePres]
            exact hq
          obtain ⟨e1, e2⟩ := ih3 q hq'
          by_cases hpq : temp.get ⟨i, hlt⟩ = q
          · exact absurd (hpq ▸ hc) hq
          · have h2 := hcnt q
            have h3 := hclean q
            rw [if_neg hpq] at h2 h3
            constructor
            · rw [e1]; omega
            · rw [e2]; omega
        · intro q hq
          by_cases hpq : temp.get ⟨i, hlt⟩ = q
          · rw [← hpq]
            exact hc
          · have h3 := hclean q
            rw [if_neg hpq] at h3
            have := ih4 q (by omega)
            rw [husePres] at this
            exact this
      · rw [sweepPromises_keep ext temp toClean i hlt hc]
        have H' : ∀ p ∈ temp.take (i + 1),
            useCount ext temp toClean p ≠ 1 := by
          intro p hp
          rw [← List.take_concat_get temp i hlt,
            List.concat_eq_append] at hp
          rcases List.mem_append.mp hp with h1 | h1
          · exact H p h1
          · have hpq : p = temp.get ⟨i, hlt⟩ := by simpa using h1
            rw [hpq]
            exact hc
        exact ih temp toClean (i + 1) (by omega) H'
    · rw [sweepPromises_stop ext temp toClean i hlt]
      refine ⟨fun q => rfl, ?_, fun q _ => ⟨rfl, rfl⟩,
        fun q hq => absurd hq (by simp)⟩
      intro p hp
      exact H p (by rw [List.take_of_length_le (by omega)]; exact hp)

/-- C7: after a `cleanupPromises` call (drain `filled` into the linear
list, then sweep, with the transient to-drop list starting empty), no
promise whose reference count is one remains in the temporary list;
every promise held only by the list (count one) has been removed from
it and moved to the to-drop list; and every promise with a higher
reference count keeps all its occurrences in the list and never reaches
the to-drop list. -/
theorem cleanupPromises_no_refcount_one (ext : ℕ → ℕ)
    (filled temp : List ℕ) :
    (∀ p ∈ (cleanupPromises ext filled temp []).1,
      ext p + (cleanupPromises ext filled temp []).1.count p
        + (cleanupPromises ext filled temp []).2.count p ≠ 1) ∧
    (∀ p, p ∈ temp ++ filled →
      ext p + (temp ++ filled).count p = 1 →
      p ∉ (cleanupPromises ext filled temp []).1 ∧
      p ∈ (cleanupPromises ext filled temp []).2) ∧
    (∀ q, ext q + (temp ++ filled).count q ≠ 1 →
      (cleanupPromises ext filled temp []).1.count q
        = (temp ++ filled).count q ∧
      (cleanupPromises ext filled temp []).2.count q = 0) := by
  simp only [cleanupPromises]
  obtain ⟨h1, h2, h3, h4⟩ := sweepPromises_spec ext (temp ++ filled).length
    (temp ++ filled) [] 0 (by omega) (by simp)
  refine ⟨?_, ?_, ?_⟩
  · intro p hp
    have h := h2 p hp
    unfold useCount at h
    simpa using h
  · intro p hpmem hp1
    have hnotin : p ∉ (sweepPromises ext (temp ++ filled) [] 0).1 := by
      intro hcontra
      have h := h2 p hcontra
      unfold useCount at h
      have hcons := h1 p
      simp only [List.count_nil] at hcons
      omega
    refine ⟨hnotin, ?_⟩
    have hr1 : (sweepPromises ext (temp ++ filled) [] 0).1.count p = 0 :=
      List.count_eq_zero.mpr hnotin
    have hcons := h1 p
    simp only [List.count_nil] at hcons
    have hmem : 0 < (temp ++ filled).count p := List.count_pos_iff.mpr hpmem
    have hpos : 0 < (sweepPromises ext (temp ++ filled) [] 0).2.count p := by
      omega
    exact List.count_pos_iff.mp hpos
  · intro q hq
    have h := h3 q (by unfold useCount; simp only [List.count_nil]; omega)
    simpa using h

/-- Witness for `cleanupPromises_no_refcount_one`: `ext` gives promise
1 one outside reference and promise 2 none; the list `[1, 2]` plus one
drained entry `[3]` (also externally unreferenced).  Promises 2 and 3
have count one and move to the to-drop list; promise 1 is retained. -/
theorem cleanupPromises_no_refcount_one_witness :
    (∀ p ∈ (cleanupPromises (fun p => if p = 1 then 1 else 0) [3] [1, 2]
        []).1,
      (if p = 1 then 1 else 0)
        + (cleanupPromises (fun p => if p = 1 then 1 else 0) [3] [1, 2]
            []).1.count p
        + (cleanupPromises (fun p => if p = 1 then 1 else 0) [3] [1, 2]
            []).2.count p ≠ 1) ∧
    (∀ p, p ∈ [1, 2] ++ [3] →
      (if p = 1 then 1 else 0) + ([1, 2] ++ [3] : List ℕ).count p = 1 →
      p ∉ (cleanupPromises (fun p => if p = 1 then 1 else 0) [3] [1, 2]
          []).1 ∧
      p ∈ (cleanupPromises (fun p => if p = 1 then 1 else 0) [3] [1, 2]
          []).2) ∧
    (∀ q, (if q = 1 then 1 else 0) + ([1, 2] ++ [3] : List ℕ).count q ≠ 1 →
      (cleanupPromises (fun p => if p = 1 then 1 else 0) [3] [1, 2]
          []).1.count q
        = ([1, 2] ++ [3] : List ℕ).count q ∧
      (cleanupPromises (fun p => if p = 1 then 1 else 0) [3] [1, 2]
          []).2.count q = 0) :=
  cleanupPromises_no_refcount_one (fun p => if p = 1 then 1 else 0) [3]
    [1, 2]

/-- Witness for `invalid_arguments_clamped` at delay −3 and channel
index 5 of a two-channel span. -/
theorem invalid_arguments_clamped_witness :
    (0 ≤ startVoiceDelay (-3) ∧
      ((-3 : ℤ) < 0 → startVoiceDelay (-3) = 0) ∧
      ((0 : ℤ) ≤ -3 → startVoiceDelay (-3) = -3)) ∧
    (¬ (5 : ℤ) < (AudioSpan.ofSpanList 2 [(100, 3), (200, 2)]).numChannels →
      (AudioSpan.ofSpanList 2 [(100, 3), (200, 2)]).getChannel 5 = 0 ∧
      (AudioSpan.ofSpanList 2 [(100, 3), (200, 2)]).getSpan 5 = (0, 0) ∧
      (AudioSpan.ofSpanList 2 [(100, 3), (200, 2)]).getConstSpan 5
        = (0, 0)) :=
  invalid_arguments_clamped (-3) (AudioSpan.ofSpanList 2 [(100, 3), (200, 2)]) 5

end Sfz

